import Mathlib

/-
Shallow embedding of the MIR interpreter in src/src/interpreter.rs.

Modelling conventions:
* `i64` values are modelled as `Int`; every arithmetic operation that can
  overflow is reduced modulo 2^64 into the signed range (two's-complement
  wraparound), matching the host's release-mode native arithmetic, while
  division/remainder keep the always-present native divide-by-zero and
  `MIN / -1` overflow aborts.
* Rust panics (`panic!`, `expect`, `unwrap`, `unimplemented!`, out-of-range
  `Vec` indexing) are modelled as `Except.error` with a constructor naming
  the abort cause, since the interpreter has no recovery path.
* the `Vec`-based stacks are modelled as Lean lists; `call_stack` keeps the
  most recently pushed frame (Rust's `last()`) at the head.
* recursion through basic blocks and nested calls is made total with an
  explicit fuel parameter; running out of fuel is its own error and is
  never identified with any behaviour of the source program.
-/

namespace Miri

/-- Runtime values (enum `Value` in the source): uninitialized slot, boolean,
64-bit signed integer, and function reference by `DefId`. -/
inductive Value where
  | Uninit : Value
  | Bool (b : Bool) : Value
  | Int (i : Int) : Value
  | Func (def_id : Nat) : Value
deriving DecidableEq

/-- Locations a value can occupy (enum `Pointer`): only stack slots are
implemented. -/
inductive Pointer where
  | Stack (offset : Nat) : Pointer
deriving DecidableEq

/-- A stack frame (struct `Frame`): base offset into the value stack plus the
declared argument/variable/temporary counts. -/
structure Frame where
  offset : Nat
  num_args : Nat
  num_vars : Nat
  num_temps : Nat
deriving DecidableEq

/-- `Frame::size`. -/
def Frame.size (f : Frame) : Nat :=
  1 + f.num_args + f.num_vars + f.num_temps

/-- `Frame::return_val_offset`. -/
def Frame.return_val_offset (f : Frame) : Nat :=
  f.offset

/-- `Frame::arg_offset`. -/
def Frame.arg_offset (f : Frame) (i : Nat) : Nat :=
  f.offset + 1 + i

/-- `Frame::var_offset`. -/
def Frame.var_offset (f : Frame) (i : Nat) : Nat :=
  f.offset + 1 + f.num_args + i

/-- `Frame::temp_offset`. -/
def Frame.temp_offset (f : Frame) (i : Nat) : Nat :=
  f.offset + 1 + f.num_args + f.num_vars + i

/-- MIR lvalues consumed by the interpreter (`mir::Lvalue`); every other
lvalue form falls into the `unimplemented!()` arm, modelled by `Other`. -/
inductive Lvalue where
  | ReturnPointer : Lvalue
  | Arg (i : Nat) : Lvalue
  | Var (i : Nat) : Lvalue
  | Temp (i : Nat) : Lvalue
  | Other : Lvalue
deriving DecidableEq

/-- Constant values (`const_eval::ConstVal`); payloads are kept only where the
interpreter reads them. -/
inductive ConstVal where
  | Float : ConstVal
  | Int (i : Int) : ConstVal
  | Uint (u : Nat) : ConstVal
  | Str : ConstVal
  | ByteStr : ConstVal
  | Bool (b : Bool) : ConstVal
  | Struct : ConstVal
  | Tuple : ConstVal
  | Function (def_id : Nat) : ConstVal
deriving DecidableEq

/-- Constant literals (`mir::Literal`): an evaluated constant value or a
reference to an item (a named function). -/
inductive Literal where
  | Value (value : ConstVal) : Literal
  | Item (def_id : Nat) : Literal
deriving DecidableEq

/-- Operands (`mir::Operand`). -/
inductive Operand where
  | Consume (lvalue : Lvalue) : Operand
  | Constant (literal : Literal) : Operand
deriving DecidableEq

/-- Binary operators (`mir::BinOp`). -/
inductive BinOp where
  | Add | Sub | Mul | Div | Rem
  | BitXor | BitAnd | BitOr | Shl | Shr
  | Eq | Lt | Le | Ne | Ge | Gt
deriving DecidableEq

/-- Unary operators (`mir::UnOp`). -/
inductive UnOp where
  | Not | Neg
deriving DecidableEq

/-- Rvalues (`mir::Rvalue`); `Other` covers every form reaching the
`unimplemented!()` arm (aggregates, refs, casts, ...). -/
inductive Rvalue where
  | Use (operand : Operand) : Rvalue
  | BinaryOp (bin_op : BinOp) (left right : Operand) : Rvalue
  | UnaryOp (un_op : UnOp) (operand : Operand) : Rvalue
  | Other : Rvalue
deriving DecidableEq

/-- Statements (`mir::StatementKind`): assignment and the no-op drop. -/
inductive StatementKind where
  | Assign (lvalue : Lvalue) (rvalue : Rvalue) : StatementKind
  | Drop (lvalue : Lvalue) : StatementKind
deriving DecidableEq

/-- Terminators (`mir::Terminator`); `Other` covers the forms reaching the
final `unimplemented!()` arm (Diverge, Panic, Switch, ...). `If` carries its
two targets as a pair, `Call` and `SwitchInt` carry target lists that the
source indexes into. -/
inductive Terminator where
  | Return : Terminator
  | Goto (target : Nat) : Terminator
  | Call (destination : Lvalue) (func : Operand) (args : List Operand)
      (targets : List Nat) : Terminator
  | If (cond : Operand) (targets : Nat × Nat) : Terminator
  | SwitchInt (discr : Lvalue) (values : List ConstVal)
      (targets : List Nat) : Terminator
  | Other : Terminator
deriving DecidableEq

/-- A basic block (`mir::BasicBlockData`). -/
structure BasicBlockData where
  statements : List StatementKind
  terminator : Terminator
deriving DecidableEq

/-- A MIR body (`mir::Mir`): the declaration lists `arg_decls`, `var_decls`
and `temp_decls` are modelled by their lengths, which is all the interpreter
reads of them, plus the basic blocks. -/
structure Mir where
  arg_decls : Nat
  var_decls : Nat
  temp_decls : Nat
  basic_blocks : List BasicBlockData
deriving DecidableEq

/-- `mir::START_BLOCK`. -/
def START_BLOCK : Nat := 0

/-- The external IR provider (`tcx` + `mir_map`): resolves a `DefId` to a MIR
body if one exists. -/
def Program : Type := Nat → Option Mir

/-- Abort/error causes. The first five are the spec's error taxonomy; the
remaining constructors name the other panics of the source and the fuel
bound of the embedding. -/
inductive EvalError where
  | UnsupportedConstruct : EvalError
  | TypeMismatch : EvalError
  | NoMatchingCase : EvalError
  | FrameStackUnderflow : EvalError
  | ArgumentCountMismatch : EvalError
  | DivideByZero : EvalError
  | Overflow : EvalError
  | IndexOutOfBounds : EvalError
  | MissingFrame : EvalError
  | UnknownFunction : EvalError
  | OutOfFuel : EvalError
deriving DecidableEq

/-- The spec's §7 error taxonomy, as a list of kinds. -/
def error_taxonomy : List EvalError :=
  [EvalError.UnsupportedConstruct, EvalError.TypeMismatch,
   EvalError.NoMatchingCase, EvalError.FrameStackUnderflow,
   EvalError.ArgumentCountMismatch]

/-- Interpreter state: the two stacks of `struct Interpreter` (the borrowed
`tcx`/`mir_map` are the read-only `Program` argument). The head of
`call_stack` is the most recently pushed frame. -/
structure InterpState where
  value_stack : List Value
  call_stack : List Frame
deriving DecidableEq

/-- `Interpreter::new`: both stacks start empty. -/
def initial_state : InterpState := ⟨[], []⟩

/-- Reduce an integer into the signed 64-bit range by two's-complement
wraparound. -/
def wrap64 (n : Int) : Int :=
  (n + 2 ^ 63) % 2 ^ 64 - 2 ^ 63

/-- The smallest `i64` value. -/
def i64_min : Int := -(2 ^ 63)

/-- Membership of the signed 64-bit range. -/
def in_i64 (n : Int) : Prop := -(2 ^ 63) ≤ n ∧ n < 2 ^ 63

instance (n : Int) : Decidable (in_i64 n) := by
  unfold in_i64; infer_instance

/-- The 64-bit two's-complement bit pattern of an integer, as a natural
number below 2^64. -/
def toBits (n : Int) : Nat := (n % 2 ^ 64).toNat

/-- The shift amount actually used by a native 64-bit shift: the low six bits
of the right operand. -/
def shift_amount (r : Int) : Nat := (r % 64).toNat

/-- The integer arm of `Interpreter::eval_rvalue`'s `BinaryOp` match: native
`i64` arithmetic on both operands. Wraparound follows two's complement;
division and remainder keep the native divide-by-zero and `MIN / -1` aborts,
which Rust performs in every build mode. -/
def binary_op (bin_op : BinOp) (l r : Int) : Except EvalError Value :=
  match bin_op with
  | BinOp.Add => Except.ok (Value.Int (wrap64 (l + r)))
  | BinOp.Sub => Except.ok (Value.Int (wrap64 (l - r)))
  | BinOp.Mul => Except.ok (Value.Int (wrap64 (l * r)))
  | BinOp.Div =>
      if r = 0 then Except.error EvalError.DivideByZero
      else if l = i64_min ∧ r = -1 then Except.error EvalError.Overflow
      else Except.ok (Value.Int (l.tdiv r))
  | BinOp.Rem =>
      if r = 0 then Except.error EvalError.DivideByZero
      else if l = i64_min ∧ r = -1 then Except.error EvalError.Overflow
      else Except.ok (Value.Int (l.tmod r))
  | BinOp.BitXor => Except.ok (Value.Int (wrap64 (Nat.xor (toBits l) (toBits r))))
  | BinOp.BitAnd => Except.ok (Value.Int (wrap64 (Nat.land (toBits l) (toBits r))))
  | BinOp.BitOr => Except.ok (Value.Int (wrap64 (Nat.lor (toBits l) (toBits r))))
  | BinOp.Shl => Except.ok (Value.Int (wrap64 (l * 2 ^ shift_amount r)))
  | BinOp.Shr => Except.ok (Value.Int (l.fdiv (2 ^ shift_amount r)))
  | BinOp.Eq => Except.ok (Value.Bool (decide (l = r)))
  | BinOp.Lt => Except.ok (Value.Bool (decide (l < r)))
  | BinOp.Le => Except.ok (Value.Bool (decide (l ≤ r)))
  | BinOp.Ne => Except.ok (Value.Bool (decide (l ≠ r)))
  | BinOp.Ge => Except.ok (Value.Bool (decide (r ≤ l)))
  | BinOp.Gt => Except.ok (Value.Bool (decide (r < l)))

/-- The loop writing `args` into the argument section during
`Interpreter::push_stack_frame`; an index beyond the value stack is a native
bounds-check abort. -/
def write_args (base : Nat) : Nat → List Value → List Value →
    Except EvalError (List Value)
  | _, [], vs => Except.ok vs
  | i, a :: rest, vs =>
      if base + 1 + i < vs.length then
        write_args base (i + 1) rest (vs.set (base + 1 + i) a)
      else Except.error EvalError.IndexOutOfBounds

/-- `Interpreter::push_stack_frame`: records a frame whose base is the
current value-stack length, extends the value stack with `size` slots of
`Uninit`, then copies the arguments in order starting at the argument
section. The source performs no argument-count check. -/
def push_stack_frame (mir : Mir) (args : List Value) (s : InterpState) :
    Except EvalError InterpState :=
  let frame : Frame :=
    ⟨s.value_stack.length, mir.arg_decls, mir.var_decls, mir.temp_decls⟩
  let vs := s.value_stack ++ List.replicate frame.size Value.Uninit
  match write_args frame.offset 0 args vs with
  | Except.ok vs' => Except.ok ⟨vs', frame :: s.call_stack⟩
  | Except.error e => Except.error e

/-- `Interpreter::pop_stack_frame`: pops the top frame (the `expect` on an
empty call stack is a fatal underflow) and truncates the value stack to its
base offset. -/
def pop_stack_frame (s : InterpState) : Except EvalError InterpState :=
  match s.call_stack with
  | [] => Except.error EvalError.FrameStackUnderflow
  | frame :: rest => Except.ok ⟨s.value_stack.take frame.offset, rest⟩

/-- `Interpreter::eval_lvalue`: resolves a location against the topmost frame
(the `expect("missing call frame")` is a fatal abort). -/
def eval_lvalue (s : InterpState) (lvalue : Lvalue) : Except EvalError Pointer :=
  match s.call_stack with
  | [] => Except.error EvalError.MissingFrame
  | frame :: _ =>
      match lvalue with
      | Lvalue.ReturnPointer => Except.ok (Pointer.Stack frame.return_val_offset)
      | Lvalue.Arg i => Except.ok (Pointer.Stack (frame.arg_offset i))
      | Lvalue.Var i => Except.ok (Pointer.Stack (frame.var_offset i))
      | Lvalue.Temp i => Except.ok (Pointer.Stack (frame.temp_offset i))
      | Lvalue.Other => Except.error EvalError.UnsupportedConstruct

/-- `Interpreter::read_pointer`: a value-stack load, aborting on an
out-of-range index as native indexing does. -/
def read_pointer (s : InterpState) (p : Pointer) : Except EvalError Value :=
  match p with
  | Pointer.Stack offset =>
      match s.value_stack[offset]? with
      | some v => Except.ok v
      | none => Except.error EvalError.IndexOutOfBounds

/-- `Interpreter::write_pointer`: a value-stack store, aborting on an
out-of-range index as native indexing does. -/
def write_pointer (s : InterpState) (p : Pointer) (val : Value) :
    Except EvalError InterpState :=
  match p with
  | Pointer.Stack offset =>
      if offset < s.value_stack.length then
        Except.ok ⟨s.value_stack.set offset val, s.call_stack⟩
      else Except.error EvalError.IndexOutOfBounds

/-- `Interpreter::read_lvalue`. -/
def read_lvalue (s : InterpState) (lvalue : Lvalue) : Except EvalError Value :=
  match eval_lvalue s lvalue with
  | Except.ok p => read_pointer s p
  | Except.error e => Except.error e

/-- `Interpreter::eval_constant`: booleans and signed integers map to values,
every other constant kind hits an `unimplemented!()` arm. -/
def eval_constant (const_val : ConstVal) : Except EvalError Value :=
  match const_val with
  | ConstVal.Float => Except.error EvalError.UnsupportedConstruct
  | ConstVal.Int i => Except.ok (Value.Int i)
  | ConstVal.Uint _ => Except.error EvalError.UnsupportedConstruct
  | ConstVal.Str => Except.error EvalError.UnsupportedConstruct
  | ConstVal.ByteStr => Except.error EvalError.UnsupportedConstruct
  | ConstVal.Bool b => Except.ok (Value.Bool b)
  | ConstVal.Struct => Except.error EvalError.UnsupportedConstruct
  | ConstVal.Tuple => Except.error EvalError.UnsupportedConstruct
  | ConstVal.Function _ => Except.error EvalError.UnsupportedConstruct

/-- `Interpreter::eval_operand`: a consume reads the lvalue's slot; a
constant literal is decoded by `eval_constant`; an item literal becomes a
function reference. -/
def eval_operand (s : InterpState) (op : Operand) : Except EvalError Value :=
  match op with
  | Operand.Consume lvalue => read_lvalue s lvalue
  | Operand.Constant (Literal.Value cv) => eval_constant cv
  | Operand.Constant (Literal.Item def_id) => Except.ok (Value.Func def_id)

/-- `Interpreter::eval_rvalue`: `Use` is operand evaluation; `BinaryOp`
evaluates left then right and requires two integers; `UnaryOp` supports
bitwise not and negation on integers; everything else is an
`unimplemented!()` arm. -/
def eval_rvalue (s : InterpState) (rvalue : Rvalue) : Except EvalError Value :=
  match rvalue with
  | Rvalue.Use operand => eval_operand s operand
  | Rvalue.BinaryOp bin_op left right =>
      match eval_operand s left with
      | Except.error e => Except.error e
      | Except.ok lv =>
          match eval_operand s right with
          | Except.error e => Except.error e
          | Except.ok rv =>
              match lv, rv with
              | Value.Int l, Value.Int r => binary_op bin_op l r
              | _, _ => Except.error EvalError.UnsupportedConstruct
  | Rvalue.UnaryOp un_op operand =>
      match eval_operand s operand with
      | Except.error e => Except.error e
      | Except.ok v =>
          match un_op, v with
          | UnOp.Not, Value.Int n => Except.ok (Value.Int (wrap64 (-(n + 1))))
          | UnOp.Neg, Value.Int n => Except.ok (Value.Int (wrap64 (-n)))
          | _, _ => Except.error EvalError.UnsupportedConstruct
  | Rvalue.Other => Except.error EvalError.UnsupportedConstruct

/-- One statement of the block body: `Assign` resolves the destination, then
evaluates the rvalue, then stores; `Drop` is a no-op. -/
def exec_stmt (s : InterpState) (stmt : StatementKind) :
    Except EvalError InterpState :=
  match stmt with
  | StatementKind.Assign lvalue rvalue =>
      match eval_lvalue s lvalue with
      | Except.error e => Except.error e
      | Except.ok ptr =>
          match eval_rvalue s rvalue with
          | Except.error e => Except.error e
          | Except.ok value => write_pointer s ptr value
  | StatementKind.Drop _ => Except.ok s

/-- The statement loop of a basic block, in order. -/
def exec_stmts (s : InterpState) : List StatementKind →
    Except EvalError InterpState
  | [] => Except.ok s
  | stmt :: rest =>
      match exec_stmt s stmt with
      | Except.error e => Except.error e
      | Except.ok s' => exec_stmts s' rest

/-- Left-to-right evaluation of the call arguments
(`args.iter().map(|arg| self.eval_operand(arg)).collect()`). -/
def eval_operands (s : InterpState) : List Operand →
    Except EvalError (List Value)
  | [] => Except.ok []
  | op :: rest =>
      match eval_operand s op with
      | Except.error e => Except.error e
      | Except.ok v =>
          match eval_operands s rest with
          | Except.error e => Except.error e
          | Except.ok vs => Except.ok (v :: vs)

/-- The `position` scan of `SwitchInt`: candidates are decoded by
`eval_constant` in order (an undecodable candidate aborts at that point) and
compared structurally with the discriminant; exhausting the list is the
`expect("discriminant matched no values")` abort. -/
def switch_position (discr_val : Value) : List ConstVal →
    Except EvalError Nat
  | [] => Except.error EvalError.NoMatchingCase
  | v :: rest =>
      match eval_constant v with
      | Except.error e => Except.error e
      | Except.ok cv =>
          if discr_val = cv then Except.ok 0
          else
            match switch_position discr_val rest with
            | Except.ok index => Except.ok (index + 1)
            | Except.error e => Except.error e

/-- The block-execution loop inside `Interpreter::call`, from a given block
label. Each loop iteration and each nested call consumes one unit of fuel.
The `Call` arm inlines the recursive `Interpreter::call` (push frame, run
from `START_BLOCK`, read the return slot, pop frame) so that the whole
executor is a single structural recursion on fuel; the standalone `call`
below packages those same steps, and `call_loop_call_arm` proves the arm
equal to a use of `call`. -/
def call_loop : Nat → Program → Mir → Nat → InterpState →
    Except EvalError InterpState
  | 0, _, _, _, _ => Except.error EvalError.OutOfFuel
  | fuel + 1, prog, mir, block, s =>
      match mir.basic_blocks[block]? with
      | none => Except.error EvalError.IndexOutOfBounds
      | some block_data =>
          match exec_stmts s block_data.statements with
          | Except.error e => Except.error e
          | Except.ok s =>
              match block_data.terminator with
              | Terminator.Return => Except.ok s
              | Terminator.Goto target => call_loop fuel prog mir target s
              | Terminator.Call destination func cargs targets =>
                  match eval_lvalue s destination with
                  | Except.error e => Except.error e
                  | Except.ok ptr =>
                      match eval_operand s func with
                      | Except.error e => Except.error e
                      | Except.ok (Value.Func def_id) =>
                          match prog def_id with
                          | none => Except.error EvalError.UnknownFunction
                          | some callee =>
                              match eval_operands s cargs with
                              | Except.error e => Except.error e
                              | Except.ok arg_vals =>
                                  match push_stack_frame callee arg_vals s with
                                  | Except.error e => Except.error e
                                  | Except.ok s1 =>
                                      match call_loop fuel prog callee START_BLOCK s1 with
                                      | Except.error e => Except.error e
                                      | Except.ok s2 =>
                                          match read_lvalue s2 Lvalue.ReturnPointer with
                                          | Except.error e => Except.error e
                                          | Except.ok return_val =>
                                              match pop_stack_frame s2 with
                                              | Except.error e => Except.error e
                                              | Except.ok s3 =>
                                                  match write_pointer s3 ptr return_val with
                                                  | Except.error e => Except.error e
                                                  | Except.ok s4 =>
                                                      match targets[0]? with
                                                      | none => Except.error EvalError.IndexOutOfBounds
                                                      | some next => call_loop fuel prog mir next s4
                      | Except.ok _ => Except.error EvalError.TypeMismatch
              | Terminator.If cond targets =>
                  match eval_operand s cond with
                  | Except.error e => Except.error e
                  | Except.ok (Value.Bool true) => call_loop fuel prog mir targets.1 s
                  | Except.ok (Value.Bool false) => call_loop fuel prog mir targets.2 s
                  | Except.ok _ => Except.error EvalError.TypeMismatch
              | Terminator.SwitchInt discr values targets =>
                  match read_lvalue s discr with
                  | Except.error e => Except.error e
                  | Except.ok discr_val =>
                      match switch_position discr_val values with
                      | Except.error e => Except.error e
                      | Except.ok index =>
                          match targets[index]? with
                          | none => Except.error EvalError.IndexOutOfBounds
                          | some target => call_loop fuel prog mir target s
              | Terminator.Other => Except.error EvalError.UnsupportedConstruct

/-- `Interpreter::call`: push the callee frame, run the block loop from
`START_BLOCK` until `Return`, read the return slot, pop the frame, and yield
the return value together with the resulting state. -/
def call (fuel : Nat) (prog : Program) (mir : Mir) (args : List Value)
    (s : InterpState) : Except EvalError (Value × InterpState) :=
  match push_stack_frame mir args s with
  | Except.error e => Except.error e
  | Except.ok s1 =>
      match call_loop fuel prog mir START_BLOCK s1 with
      | Except.error e => Except.error e
      | Except.ok s2 =>
          match read_lvalue s2 Lvalue.ReturnPointer with
          | Except.error e => Except.error e
          | Except.ok ret_val =>
              match pop_stack_frame s2 with
              | Except.error e => Except.error e
              | Except.ok s3 => Except.ok (ret_val, s3)

/-- A concrete trivial body used to instantiate hypotheses: no arguments,
variables or temporaries, a single block that immediately returns. -/
def trivial_mir : Mir := ⟨0, 0, 0, [⟨[], Terminator.Return⟩]⟩

/-- A concrete empty IR provider. -/
def empty_prog : Program := fun _ => none

/-- Writing the argument loop never changes the value-stack length. -/
theorem write_args_length {base : Nat} :
    ∀ (args : List Value) (i : Nat) (vs vs' : List Value),
    write_args base i args vs = Except.ok vs' → vs'.length = vs.length := by
  intro args
  induction args with
  | nil =>
    intro i vs vs' h
    simp [write_args] at h
    simp [h]
  | cons a rest ih =>
    intro i vs vs' h
    simp only [write_args] at h
    by_cases hc : base + 1 + i < vs.length
    · rw [if_pos hc] at h
      have := ih (i + 1) (vs.set (base + 1 + i) a) vs' h
      simpa using this
    · rw [if_neg hc] at h
      exact absurd h (by simp)

/-- Characterization of a successful frame push: the new frame sits at the
old value-stack length and the value stack grows by exactly the frame
size. -/
theorem push_stack_frame_ok {mir : Mir} {args : List Value}
    {s s' : InterpState} (h : push_stack_frame mir args s = Except.ok s') :
    s'.call_stack =
      (⟨s.value_stack.length, mir.arg_decls, mir.var_decls, mir.temp_decls⟩ : Frame)
        :: s.call_stack
    ∧ s'.value_stack.length =
      s.value_stack.length + (1 + mir.arg_decls + mir.var_decls + mir.temp_decls) := by
  simp only [push_stack_frame] at h
  split at h
  next vs' hw =>
    cases h
    have hlen := write_args_length args 0 _ vs' hw
    constructor
    · rfl
    · simp [hlen, Frame.size]
  next e hw => exact absurd h (by simp)

/-- A successful pointer write preserves the call stack and the value-stack
length. -/
theorem write_pointer_ok {s s' : InterpState} {p : Pointer} {v : Value}
    (h : write_pointer s p v = Except.ok s') :
    s'.call_stack = s.call_stack
    ∧ s'.value_stack.length = s.value_stack.length := by
  cases p with
  | Stack offset =>
    simp only [write_pointer] at h
    split at h
    · cases h
      simp
    · exact absurd h (by simp)

/-- A successful statement preserves the call stack and the value-stack
length. -/
theorem exec_stmt_ok {s s' : InterpState} {stmt : StatementKind}
    (h : exec_stmt s stmt = Except.ok s') :
    s'.call_stack = s.call_stack
    ∧ s'.value_stack.length = s.value_stack.length := by
  cases stmt with
  | Assign lvalue rvalue =>
    simp only [exec_stmt] at h
    split at h
    · exact absurd h (by simp)
    · split at h
      · exact absurd h (by simp)
      · exact write_pointer_ok h
  | Drop lvalue =>
    simp only [exec_stmt] at h
    cases h
    exact ⟨rfl, rfl⟩

/-- A successful statement list preserves the call stack and the value-stack
length. -/
theorem exec_stmts_ok {s s' : InterpState} {stmts : List StatementKind}
    (h : exec_stmts s stmts = Except.ok s') :
    s'.call_stack = s.call_stack
    ∧ s'.value_stack.length = s.value_stack.length := by
  induction stmts generalizing s with
  | nil =>
    simp only [exec_stmts] at h
    cases h
    exact ⟨rfl, rfl⟩
  | cons stmt rest ih =>
    simp only [exec_stmts] at h
    split at h
    next e h1 => exact absurd h (by simp)
    next s1 h1 =>
      have ha := exec_stmt_ok h1
      have hb := ih h
      exact ⟨hb.1.trans ha.1, hb.2.trans ha.2⟩

/-- A successful pop removes exactly the top frame and truncates the value
stack to its base. -/
theorem pop_stack_frame_ok {s s' : InterpState}
    (h : pop_stack_frame s = Except.ok s') :
    ∃ f rest, s.call_stack = f :: rest
      ∧ s' = ⟨s.value_stack.take f.offset, rest⟩ := by
  simp only [pop_stack_frame] at h
  split at h
  next hc => exact absurd h (by simp)
  next f rest hc =>
    cases h
    exact ⟨f, rest, hc, rfl⟩

/-- The block loop preserves the call stack and the value-stack length
whenever it terminates normally: every frame pushed on the way is popped
again, and every slot allocated for it is truncated away. -/
theorem call_loop_ok :
    ∀ (fuel : Nat) (prog : Program) (mir : Mir) (b : Nat) (s s' : InterpState),
    call_loop fuel prog mir b s = Except.ok s' →
    s'.call_stack = s.call_stack
    ∧ s'.value_stack.length = s.value_stack.length := by
  intro fuel
  induction fuel with
  | zero =>
    intro prog mir b s s' h
    exact absurd h (by simp [call_loop])
  | succ fuel ih =>
    intro prog mir b s s' h
    simp only [call_loop] at h
    split at h
    next => exact absurd h (by simp)
    next bd hb =>
    split at h
    next e h1 => exact absurd h (by simp)
    next s0 h1 =>
    have hs0 := exec_stmts_ok h1
    split at h
    -- Return
    next hterm =>
      cases h
      exact hs0
    -- Goto
    next target hterm =>
      have := ih prog mir target s0 s' h
      exact ⟨this.1.trans hs0.1, this.2.trans hs0.2⟩
    -- Call
    next destination func cargs targets hterm =>
      split at h
      next e hp => exact absurd h (by simp)
      next ptr hp =>
      split at h
      next e hf => exact absurd h (by simp)
      next def_id hf =>
        split at h
        next hprog => exact absurd h (by simp)
        next callee hprog =>
        split at h
        next e ha => exact absurd h (by simp)
        next arg_vals ha =>
        split at h
        next e hpush => exact absurd h (by simp)
        next s1 hpush =>
        split at h
        next e hloop => exact absurd h (by simp)
        next s2 hloop =>
        split at h
        next e hread => exact absurd h (by simp)
        next return_val hread =>
        split at h
        next e hpop => exact absurd h (by simp)
        next s3 hpop =>
        split at h
        next e hw => exact absurd h (by simp)
        next s4 hw =>
        split at h
        next hnext => exact absurd h (by simp)
        next next hnext =>
        have hpu := push_stack_frame_ok hpush
        have hlo := ih prog callee START_BLOCK s1 s2 hloop
        obtain ⟨f', rest', hcs2, hs3⟩ := pop_stack_frame_ok hpop
        rw [hlo.1, hpu.1] at hcs2
        cases hcs2
        have hs3cs : s3.call_stack = s0.call_stack := by rw [hs3]
        have hs3len : s3.value_stack.length = s0.value_stack.length := by
          rw [hs3]
          simp only [List.length_take]
          rw [hlo.2, hpu.2]
          simp
        have hwp := write_pointer_ok hw
        have htail := ih prog mir next s4 s' h
        refine ⟨?_, ?_⟩
        · rw [htail.1, hwp.1, hs3cs, hs0.1]
        · rw [htail.2, hwp.2, hs3len, hs0.2]
      next v hne hf => exact absurd h (by simp)
    -- If
    next cond targets hterm =>
      split at h
      next e hc => exact absurd h (by simp)
      next hc =>
        have := ih prog mir targets.1 s0 s' h
        exact ⟨this.1.trans hs0.1, this.2.trans hs0.2⟩
      next hc =>
        have := ih prog mir targets.2 s0 s' h
        exact ⟨this.1.trans hs0.1, this.2.trans hs0.2⟩
      next v hne hc => exact absurd h (by simp)
    -- SwitchInt
    next discr values targets hterm =>
      split at h
      next e hd => exact absurd h (by simp)
      next discr_val hd =>
      split at h
      next e hsp => exact absurd h (by simp)
      next index hsp =>
      split at h
      next htg => exact absurd h (by simp)
      next target htg =>
        have := ih prog mir target s0 s' h
        exact ⟨this.1.trans hs0.1, this.2.trans hs0.2⟩
    -- Other
    next => exact absurd h (by simp)

/-- A completed `call` restores the caller's call stack and value-stack
length exactly. -/
theorem call_ok {fuel : Nat} {prog : Program} {mir : Mir} {args : List Value}
    {s s' : InterpState} {v : Value}
    (h : call fuel prog mir args s = Except.ok (v, s')) :
    s'.call_stack = s.call_stack
    ∧ s'.value_stack.length = s.value_stack.length := by
  simp only [call] at h
  split at h
  next e hpush => exact absurd h (by simp)
  next s1 hpush =>
  split at h
  next e hloop => exact absurd h (by simp)
  next s2 hloop =>
  split at h
  next e hread => exact absurd h (by simp)
  next ret hread =>
  split at h
  next e hpop => exact absurd h (by simp)
  next s3 hpop =>
  cases h
  have hpu := push_stack_frame_ok hpush
  have hlo := call_loop_ok fuel prog mir START_BLOCK s1 s2 hloop
  obtain ⟨f', rest', hcs2, hs3⟩ := pop_stack_frame_ok hpop
  rw [hlo.1, hpu.1] at hcs2
  cases hcs2
  constructor
  · rw [hs3]
  · rw [hs3]
    simp only [List.length_take]
    rw [hlo.2, hpu.2]
    simp

/-- Well-stacked frames over a value stack of length `n`: each frame ends
exactly where the frame above begins, and the bottom frame begins at slot
zero. -/
def frames_wf : List Frame → Nat → Prop
  | [], n => n = 0
  | f :: rest, n => f.offset + f.size = n ∧ frames_wf rest f.offset

/-- The sum of the sizes of the listed frames. -/
def sum_sizes (fs : List Frame) : Nat :=
  fs.foldr (fun f acc => f.size + acc) 0

/-- A state is well formed when its frames tile the whole value stack. -/
def state_wf (s : InterpState) : Prop :=
  frames_wf s.call_stack s.value_stack.length

/-- Well-stacked frames have sizes summing to the stack length. -/
theorem frames_wf_sum : ∀ (fs : List Frame) (n : Nat),
    frames_wf fs n → sum_sizes fs = n := by
  intro fs
  induction fs with
  | nil => intro n h; exact h.symm ▸ rfl
  | cons f rest ih =>
    intro n h
    obtain ⟨h1, h2⟩ := h
    have := ih f.offset h2
    simp only [sum_sizes, List.foldr] at this ⊢
    omega

/-- Pushing a frame preserves state well-formedness. -/
theorem push_preserves_wf {mir : Mir} {args : List Value} {s s' : InterpState}
    (hwf : state_wf s) (h : push_stack_frame mir args s = Except.ok s') :
    state_wf s' := by
  have hc := push_stack_frame_ok h
  unfold state_wf
  rw [hc.1, hc.2]
  exact ⟨by simp [Frame.size], hwf⟩

/-- Popping a frame preserves state well-formedness. -/
theorem pop_preserves_wf {s s' : InterpState}
    (hwf : state_wf s) (h : pop_stack_frame s = Except.ok s') :
    state_wf s' := by
  obtain ⟨f, rest, hcs, hs'⟩ := pop_stack_frame_ok h
  unfold state_wf at hwf ⊢
  rw [hcs] at hwf
  rw [hs']
  simp only [List.length_take]
  have hle : f.offset ≤ s.value_stack.length := by
    have := hwf.1
    omega
  rw [Nat.min_eq_left hle]
  exact hwf.2

/-- Well-formedness only depends on the call stack and the value-stack
length. -/
theorem wf_of_same_shape {s s' : InterpState} (hwf : state_wf s)
    (hcs : s'.call_stack = s.call_stack)
    (hlen : s'.value_stack.length = s.value_stack.length) : state_wf s' := by
  unfold state_wf at hwf ⊢
  rw [hcs, hlen]
  exact hwf

/-- C1: a frame occupies exactly `1 + num_args + num_vars + num_temps`
contiguous slots (a push grows the value stack by exactly that amount,
starting at the pushed frame's base offset, which is the previous stack
length), and resolving a location against the topmost frame with base `b`
yields `Stack b` for the return slot, `Stack (b + 1 + i)` for argument `i`,
`Stack (b + 1 + num_args + i)` for variable `i` and
`Stack (b + 1 + num_args + num_vars + i)` for temporary `i`. -/
theorem frame_layout_resolution :
    (∀ (s : InterpState) (f : Frame) (rest : List Frame),
      s.call_stack = f :: rest →
      f.size = 1 + f.num_args + f.num_vars + f.num_temps
      ∧ eval_lvalue s Lvalue.ReturnPointer = Except.ok (Pointer.Stack f.offset)
      ∧ (∀ i, eval_lvalue s (Lvalue.Arg i) =
          Except.ok (Pointer.Stack (f.offset + 1 + i)))
      ∧ (∀ i, eval_lvalue s (Lvalue.Var i) =
          Except.ok (Pointer.Stack (f.offset + 1 + f.num_args + i)))
      ∧ (∀ i, eval_lvalue s (Lvalue.Temp i) =
          Except.ok (Pointer.Stack (f.offset + 1 + f.num_args + f.num_vars + i))))
    ∧ (∀ (mir : Mir) (args : List Value) (s s' : InterpState),
      push_stack_frame mir args s = Except.ok s' →
      s'.call_stack =
        (⟨s.value_stack.length, mir.arg_decls, mir.var_decls, mir.temp_decls⟩ : Frame)
          :: s.call_stack
      ∧ s'.value_stack.length =
        s.value_stack.length + (1 + mir.arg_decls + mir.var_decls + mir.temp_decls)) := by
  constructor
  · intro s f rest hcs
    refine ⟨rfl, ?_, ?_, ?_, ?_⟩ <;>
      simp [eval_lvalue, hcs, Frame.return_val_offset, Frame.arg_offset,
        Frame.var_offset, Frame.temp_offset]
  · intro mir args s s' h
    exact push_stack_frame_ok h

/-- Witness for C1 at a concrete state holding one frame with base 2 and
counts 1/1/1, and a concrete push onto it. -/
theorem frame_layout_resolution_witness :
    ((⟨2, 1, 1, 1⟩ : Frame).size = 1 + 1 + 1 + 1
      ∧ eval_lvalue ⟨List.replicate 6 Value.Uninit, [⟨2, 1, 1, 1⟩]⟩
          Lvalue.ReturnPointer = Except.ok (Pointer.Stack 2)
      ∧ (∀ i, eval_lvalue ⟨List.replicate 6 Value.Uninit, [⟨2, 1, 1, 1⟩]⟩
          (Lvalue.Arg i) = Except.ok (Pointer.Stack (2 + 1 + i)))
      ∧ (∀ i, eval_lvalue ⟨List.replicate 6 Value.Uninit, [⟨2, 1, 1, 1⟩]⟩
          (Lvalue.Var i) = Except.ok (Pointer.Stack (2 + 1 + 1 + i)))
      ∧ (∀ i, eval_lvalue ⟨List.replicate 6 Value.Uninit, [⟨2, 1, 1, 1⟩]⟩
          (Lvalue.Temp i) = Except.ok (Pointer.Stack (2 + 1 + 1 + 1 + i)))) :=
  frame_layout_resolution.1 ⟨List.replicate 6 Value.Uninit, [⟨2, 1, 1, 1⟩]⟩
    ⟨2, 1, 1, 1⟩ [] rfl

/-- C3: (1) a normally completing `call` restores the value-stack length and
the caller's call stack; (2) popping a frame truncates the value stack back
exactly to that frame's base; (3) in a well-formed state the live frames'
sizes sum to the value-stack length; and (4)-(7) every state-changing step
(push, pop, statement, block loop) preserves well-formedness, so the
invariant holds throughout execution. -/
theorem stack_balance :
    (∀ (fuel : Nat) (prog : Program) (mir : Mir) (args : List Value)
       (s : InterpState) (v : Value) (s' : InterpState),
      call fuel prog mir args s = Except.ok (v, s') →
      s'.value_stack.length = s.value_stack.length
      ∧ s'.call_stack = s.call_stack)
    ∧ (∀ (s s' : InterpState), pop_stack_frame s = Except.ok s' →
      ∃ f rest, s.call_stack = f :: rest
        ∧ s'.value_stack = s.value_stack.take f.offset
        ∧ s'.call_stack = rest)
    ∧ (∀ s : InterpState, state_wf s →
      sum_sizes s.call_stack = s.value_stack.length)
    ∧ (∀ (mir : Mir) (args : List Value) (s s' : InterpState), state_wf s →
      push_stack_frame mir args s = Except.ok s' → state_wf s')
    ∧ (∀ (s s' : InterpState), state_wf s →
      pop_stack_frame s = Except.ok s' → state_wf s')
    ∧ (∀ (stmt : StatementKind) (s s' : InterpState), state_wf s →
      exec_stmt s stmt = Except.ok s' → state_wf s')
    ∧ (∀ (fuel : Nat) (prog : Program) (mir : Mir) (b : Nat)
       (s s' : InterpState), state_wf s →
      call_loop fuel prog mir b s = Except.ok s' → state_wf s') := by
  refine ⟨?_, ?_, ?_, ?_, ?_, ?_, ?_⟩
  · intro fuel prog mir args s v s' h
    have := call_ok h
    exact ⟨this.2, this.1⟩
  · intro s s' h
    obtain ⟨f, rest, hcs, hs'⟩ := pop_stack_frame_ok h
    exact ⟨f, rest, hcs, by rw [hs'], by rw [hs']⟩
  · intro s hwf
    exact frames_wf_sum s.call_stack s.value_stack.length hwf
  · intro mir args s s' hwf h
    exact push_preserves_wf hwf h
  · intro s s' hwf h
    exact pop_preserves_wf hwf h
  · intro stmt s s' hwf h
    have := exec_stmt_ok h
    exact wf_of_same_shape hwf this.1 this.2
  · intro fuel prog mir b s s' hwf h
    have := call_loop_ok fuel prog mir b s s' h
    exact wf_of_same_shape hwf this.1 this.2

/-- Witness for C3: running the trivial body from the empty initial state
completes and restores the empty stacks. -/
theorem stack_balance_witness :
    initial_state.value_stack.length = initial_state.value_stack.length
    ∧ initial_state.call_stack = initial_state.call_stack :=
  stack_balance.1 2 empty_prog trivial_mir [] initial_state Value.Uninit
    initial_state rfl

/-- C7: a boolean literal evaluates to `Bool`, a signed-integer literal to
`Int`, an item (named function) operand to `Func`, and every other constant
kind — float, unsigned, string, byte string, struct, tuple,
function-as-constant — is an unsupported construct, with no partial result
produced. -/
theorem constant_evaluation :
    (∀ b, eval_constant (ConstVal.Bool b) = Except.ok (Value.Bool b))
    ∧ (∀ i, eval_constant (ConstVal.Int i) = Except.ok (Value.Int i))
    ∧ (∀ (s : InterpState) (def_id : Nat),
        eval_operand s (Operand.Constant (Literal.Item def_id)) =
          Except.ok (Value.Func def_id))
    ∧ eval_constant ConstVal.Float = Except.error EvalError.UnsupportedConstruct
    ∧ (∀ u, eval_constant (ConstVal.Uint u) =
        Except.error EvalError.UnsupportedConstruct)
    ∧ eval_constant ConstVal.Str = Except.error EvalError.UnsupportedConstruct
    ∧ eval_constant ConstVal.ByteStr = Except.error EvalError.UnsupportedConstruct
    ∧ eval_constant ConstVal.Struct = Except.error EvalError.UnsupportedConstruct
    ∧ eval_constant ConstVal.Tuple = Except.error EvalError.UnsupportedConstruct
    ∧ (∀ def_id, eval_constant (ConstVal.Function def_id) =
        Except.error EvalError.UnsupportedConstruct) := by
  refine ⟨fun b => rfl, fun i => rfl, fun s d => rfl, rfl, fun u => rfl,
    rfl, rfl, rfl, rfl, fun d => rfl⟩

/-- C8: an `If` terminator evaluates its condition; `Bool true` continues at
the first target, `Bool false` at the second, any non-boolean value is a
fatal type mismatch, and a failing condition evaluation propagates its
abort. -/
theorem if_terminator_semantics
    (fuel : Nat) (prog : Program) (mir : Mir) (b : Nat)
    (bd : BasicBlockData) (cond : Operand) (targets : Nat × Nat)
    (s s0 : InterpState)
    (hb : mir.basic_blocks[b]? = some bd)
    (hstmts : exec_stmts s bd.statements = Except.ok s0)
    (hterm : bd.terminator = Terminator.If cond targets) :
    (eval_operand s0 cond = Except.ok (Value.Bool true) →
      call_loop (fuel + 1) prog mir b s = call_loop fuel prog mir targets.1 s0)
    ∧ (eval_operand s0 cond = Except.ok (Value.Bool false) →
      call_loop (fuel + 1) prog mir b s = call_loop fuel prog mir targets.2 s0)
    ∧ (∀ v, eval_operand s0 cond = Except.ok v → (∀ b', v ≠ Value.Bool b') →
      call_loop (fuel + 1) prog mir b s = Except.error EvalError.TypeMismatch)
    ∧ (∀ e, eval_operand s0 cond = Except.error e →
      call_loop (fuel + 1) prog mir b s = Except.error e) := by
  refine ⟨?_, ?_, ?_, ?_⟩
  · intro hc
    simp [call_loop, hb, hstmts, hterm, hc]
  · intro hc
    simp [call_loop, hb, hstmts, hterm, hc]
  · intro v hc hne
    cases v with
    | Uninit => simp [call_loop, hb, hstmts, hterm, hc]
    | Bool b' => exact absurd rfl (hne b')
    | Int i => simp [call_loop, hb, hstmts, hterm, hc]
    | Func d => simp [call_loop, hb, hstmts, hterm, hc]
  · intro e hc
    simp [call_loop, hb, hstmts, hterm, hc]

/-- Witness for C8: scenario B's branch on the constant `true`. -/
theorem if_terminator_semantics_witness :
    call_loop 2 empty_prog
        (⟨0, 0, 0,
          [⟨[], Terminator.If
            (Operand.Constant (Literal.Value (ConstVal.Bool true))) (1, 2)⟩]⟩ : Mir)
        0 initial_state =
      call_loop 1 empty_prog
        (⟨0, 0, 0,
          [⟨[], Terminator.If
            (Operand.Constant (Literal.Value (ConstVal.Bool true))) (1, 2)⟩]⟩ : Mir)
        1 initial_state :=
  (if_terminator_semantics 1 empty_prog
    ⟨0, 0, 0, [⟨[], Terminator.If
      (Operand.Constant (Literal.Value (ConstVal.Bool true))) (1, 2)⟩]⟩
    0 ⟨[], Terminator.If (Operand.Constant (Literal.Value (ConstVal.Bool true))) (1, 2)⟩
    (Operand.Constant (Literal.Value (ConstVal.Bool true))) (1, 2)
    initial_state initial_state rfl rfl rfl).1 rfl

/-- C9: evaluation is deterministic — two invocations of the executor on the
same body with the same arguments, each starting from the empty stacks of a
fresh interpreter, yield identical results. The embedded interpreter state
consists solely of the two stacks; the IR provider is a read-only input. -/
theorem evaluation_deterministic
    (fuel : Nat) (prog : Program) (mir : Mir) (args : List Value)
    (r1 r2 : Except EvalError (Value × InterpState))
    (h1 : call fuel prog mir args initial_state = r1)
    (h2 : call fuel prog mir args initial_state = r2) : r1 = r2 := by
  rw [← h1, ← h2]

/-- Witness for C9: two runs of the trivial body agree. -/
theorem evaluation_deterministic_witness :
    (Except.ok (Value.Uninit, initial_state)
      : Except EvalError (Value × InterpState))
    = Except.ok (Value.Uninit, initial_state) :=
  evaluation_deterministic 2 empty_prog trivial_mir []
    (Except.ok (Value.Uninit, initial_state))
    (Except.ok (Value.Uninit, initial_state)) rfl rfl

/-- C10: dividing or taking the remainder by `Integer(0)` aborts with a
divide-by-zero failure that is not one of the spec's five error-taxonomy
kinds and produces no value; with a nonzero divisor (and away from the
`MIN / -1` overflow abort) both operations do produce an `Integer`. The
same abort surfaces through `eval_rvalue` on constant operands. -/
theorem div_rem_unguarded (l : Int) :
    binary_op BinOp.Div l 0 = Except.error EvalError.DivideByZero
    ∧ binary_op BinOp.Rem l 0 = Except.error EvalError.DivideByZero
    ∧ EvalError.DivideByZero ∉ error_taxonomy
    ∧ (∀ v, binary_op BinOp.Div l 0 ≠ Except.ok v)
    ∧ (∀ v, binary_op BinOp.Rem l 0 ≠ Except.ok v)
    ∧ (∀ r : Int, r ≠ 0 → ¬(l = i64_min ∧ r = -1) →
      (∃ i, binary_op BinOp.Div l r = Except.ok (Value.Int i))
      ∧ (∃ i, binary_op BinOp.Rem l r = Except.ok (Value.Int i)))
    ∧ (∀ s, eval_rvalue s
        (Rvalue.BinaryOp BinOp.Div
          (Operand.Constant (Literal.Value (ConstVal.Int l)))
          (Operand.Constant (Literal.Value (ConstVal.Int 0)))) =
        Except.error EvalError.DivideByZero) := by
  refine ⟨by simp [binary_op], by simp [binary_op], by simp [error_taxonomy],
    ?_, ?_, ?_, ?_⟩
  · intro v
    simp [binary_op]
  · intro v
    simp [binary_op]
  · intro r hr hmin
    constructor
    · exact ⟨l.tdiv r, by simp [binary_op, hr, hmin]⟩
    · exact ⟨l.tmod r, by simp [binary_op, hr, hmin]⟩
  · intro s
    simp [eval_rvalue, eval_operand, eval_constant, binary_op]

/-- Witness for C10 at `l = 7`, `r = 5`. -/
theorem div_rem_unguarded_witness :
    (∃ i, binary_op BinOp.Div 7 5 = Except.ok (Value.Int i))
    ∧ (∃ i, binary_op BinOp.Rem 7 5 = Except.ok (Value.Int i)) :=
  (div_rem_unguarded 7).2.2.2.2.2.1 5 (by decide) (by decide)

/-- The scan returns the position of the first candidate that decodes to the
discriminant, provided every earlier candidate decodes to a different
value. -/
theorem switch_position_first_match :
    ∀ (values : List ConstVal) (dv : Value) (i : Nat),
    (∀ j cv, j < i → values[j]? = some cv →
      ∃ w, eval_constant cv = Except.ok w ∧ w ≠ dv) →
    (∃ cv, values[i]? = some cv ∧ eval_constant cv = Except.ok dv) →
    switch_position dv values = Except.ok i := by
  intro values
  induction values with
  | nil =>
    intro dv i hbefore hat
    obtain ⟨cv, hcv, _⟩ := hat
    simp at hcv
  | cons v rest ih =>
    intro dv i hbefore hat
    cases i with
    | zero =>
      obtain ⟨cv, hcv, hdec⟩ := hat
      simp only [List.getElem?_cons_zero, Option.some.injEq] at hcv
      subst hcv
      simp [switch_position, hdec]
    | succ i' =>
      obtain ⟨w, hw, hne⟩ := hbefore 0 v (Nat.succ_pos i') (by simp)
      have hrec : switch_position dv rest = Except.ok i' := by
        apply ih
        · intro j cv hj hcv
          exact hbefore (j + 1) cv (Nat.succ_lt_succ hj) (by simpa using hcv)
        · obtain ⟨cv, hcv, hdec⟩ := hat
          exact ⟨cv, by simpa using hcv, hdec⟩
      simp [switch_position, hw, hrec, (hne.symm : dv ≠ w)]

/-- The scan reports `NoMatchingCase` when every candidate decodes to a value
different from the discriminant. -/
theorem switch_position_no_match :
    ∀ (values : List ConstVal) (dv : Value),
    (∀ cv ∈ values, ∃ w, eval_constant cv = Except.ok w ∧ w ≠ dv) →
    switch_position dv values = Except.error EvalError.NoMatchingCase := by
  intro values
  induction values with
  | nil =>
    intro dv h
    rfl
  | cons v rest ih =>
    intro dv h
    obtain ⟨w, hw, hne⟩ := h v (List.mem_cons_self v rest)
    have hrec := ih dv (fun cv hcv => h cv (List.mem_cons_of_mem v hcv))
    simp [switch_position, hw, hrec, (hne.symm : dv ≠ w)]

/-- C5: a `SwitchInt` terminator obtains its discriminant by reading the
current stored value of the discriminant location (a slot read through
`eval_lvalue`/`read_pointer`, not an expression re-evaluation), linearly
scans the candidate list for the first entry structurally equal to it,
continues at the target in the same position, and reports a fatal
`NoMatchingCase` when no entry matches (there is no default arm). -/
theorem switch_int_semantics
    (fuel : Nat) (prog : Program) (mir : Mir) (b : Nat)
    (bd : BasicBlockData) (discr : Lvalue) (values : List ConstVal)
    (targets : List Nat) (s s0 : InterpState)
    (hb : mir.basic_blocks[b]? = some bd)
    (hstmts : exec_stmts s bd.statements = Except.ok s0)
    (hterm : bd.terminator = Terminator.SwitchInt discr values targets) :
    (∀ dv index t, read_lvalue s0 discr = Except.ok dv →
      switch_position dv values = Except.ok index →
      targets[index]? = some t →
      call_loop (fuel + 1) prog mir b s = call_loop fuel prog mir t s0)
    ∧ (∀ dv e, read_lvalue s0 discr = Except.ok dv →
      switch_position dv values = Except.error e →
      call_loop (fuel + 1) prog mir b s = Except.error e)
    ∧ (∀ dv, read_lvalue s0 discr = Except.ok dv →
      ∃ p, eval_lvalue s0 discr = Except.ok p ∧ read_pointer s0 p = Except.ok dv)
    ∧ (∀ dv i,
      (∀ j cv, j < i → values[j]? = some cv →
        ∃ w, eval_constant cv = Except.ok w ∧ w ≠ dv) →
      (∃ cv, values[i]? = some cv ∧ eval_constant cv = Except.ok dv) →
      switch_position dv values = Except.ok i)
    ∧ (∀ dv,
      (∀ cv ∈ values, ∃ w, eval_constant cv = Except.ok w ∧ w ≠ dv) →
      switch_position dv values = Except.error EvalError.NoMatchingCase) := by
  refine ⟨?_, ?_, ?_, ?_, ?_⟩
  · intro dv index t hread hpos htg
    simp [call_loop, hb, hstmts, hterm, hread, hpos, htg]
  · intro dv e hread hpos
    simp [call_loop, hb, hstmts, hterm, hread, hpos]
  · intro dv hread
    simp only [read_lvalue] at hread
    split at hread
    next p hp => exact ⟨p, hp, hread⟩
    next e hp => exact absurd hread (by simp)
  · intro dv i hbefore hat
    exact switch_position_first_match values dv i hbefore hat
  · intro dv hall
    exact switch_position_no_match values dv hall

/-- Witness for C5: scenario E — discriminant `Integer(9)` against candidates
`{0, 1, 2}` is a fatal `NoMatchingCase`. -/
theorem switch_int_semantics_witness :
    call_loop 2 empty_prog
      (⟨0, 0, 1,
        [⟨[], Terminator.SwitchInt (Lvalue.Temp 0)
          [ConstVal.Int 0, ConstVal.Int 1, ConstVal.Int 2] [1, 2, 3]⟩]⟩ : Mir)
      0 ⟨[Value.Uninit, Value.Int 9], [⟨0, 0, 0, 1⟩]⟩ =
    Except.error EvalError.NoMatchingCase :=
  (switch_int_semantics 1 empty_prog
    ⟨0, 0, 1, [⟨[], Terminator.SwitchInt (Lvalue.Temp 0)
      [ConstVal.Int 0, ConstVal.Int 1, ConstVal.Int 2] [1, 2, 3]⟩]⟩
    0 ⟨[], Terminator.SwitchInt (Lvalue.Temp 0)
      [ConstVal.Int 0, ConstVal.Int 1, ConstVal.Int 2] [1, 2, 3]⟩
    (Lvalue.Temp 0) [ConstVal.Int 0, ConstVal.Int 1, ConstVal.Int 2] [1, 2, 3]
    ⟨[Value.Uninit, Value.Int 9], [⟨0, 0, 0, 1⟩]⟩
    ⟨[Value.Uninit, Value.Int 9], [⟨0, 0, 0, 1⟩]⟩
    rfl rfl rfl).2.1 (Value.Int 9) EvalError.NoMatchingCase rfl rfl

/-- Reading back through the pointer just written yields the written
value. -/
theorem read_after_write {s s' : InterpState} {p : Pointer} {v : Value}
    (h : write_pointer s p v = Except.ok s') :
    read_pointer s' p = Except.ok v := by
  cases p with
  | Stack offset =>
    simp only [write_pointer] at h
    split at h
    next hlt =>
      cases h
      simp [read_pointer, List.getElem?_set, hlt]
    next => exact absurd h (by simp)

/-- C2: a `Call` terminator first resolves the destination in the caller's
frame and evaluates the callee to a value, which must be a function
reference — any other value kind is a fatal type mismatch; with a function
callee, the body is looked up in the IR provider, the argument expressions
are evaluated (left to right, against the caller's state `s0`, before any
callee frame exists), the executor `call` is invoked recursively on the
callee body with those values, the returned value is stored at the resolved
destination, and execution continues at the first `targets` entry. -/
theorem call_terminator_semantics
    (fuel : Nat) (prog : Program) (mir : Mir) (b : Nat)
    (bd : BasicBlockData) (dest : Lvalue) (func : Operand)
    (cargs : List Operand) (targets : List Nat) (s s0 : InterpState)
    (hb : mir.basic_blocks[b]? = some bd)
    (hstmts : exec_stmts s bd.statements = Except.ok s0)
    (hterm : bd.terminator = Terminator.Call dest func cargs targets) :
    (∀ ptr v, eval_lvalue s0 dest = Except.ok ptr →
      eval_operand s0 func = Except.ok v → (∀ d, v ≠ Value.Func d) →
      call_loop (fuel + 1) prog mir b s = Except.error EvalError.TypeMismatch)
    ∧ (∀ ptr d callee arg_vals ret s' s'' next rest',
      eval_lvalue s0 dest = Except.ok ptr →
      eval_operand s0 func = Except.ok (Value.Func d) →
      prog d = some callee →
      eval_operands s0 cargs = Except.ok arg_vals →
      call fuel prog callee arg_vals s0 = Except.ok (ret, s') →
      write_pointer s' ptr ret = Except.ok s'' →
      targets = next :: rest' →
      call_loop (fuel + 1) prog mir b s = call_loop fuel prog mir next s''
      ∧ read_pointer s'' ptr = Except.ok ret) := by
  constructor
  · intro ptr v hp hf hne
    cases v with
    | Uninit => simp [call_loop, hb, hstmts, hterm, hp, hf]
    | Bool b' => simp [call_loop, hb, hstmts, hterm, hp, hf]
    | Int i => simp [call_loop, hb, hstmts, hterm, hp, hf]
    | Func d => exact absurd rfl (hne d)
  · intro ptr d callee arg_vals ret s' s'' next rest'
      hp hf hprog hargs hcall hw htg
    simp only [call] at hcall
    split at hcall
    next e hpush => exact absurd hcall (by simp)
    next s1 hpush =>
    split at hcall
    next e hloop => exact absurd hcall (by simp)
    next s2 hloop =>
    split at hcall
    next e hread => exact absurd hcall (by simp)
    next ret_val hread =>
    split at hcall
    next e hpop => exact absurd hcall (by simp)
    next s3 hpop =>
    rw [Except.ok.injEq, Prod.mk.injEq] at hcall
    obtain ⟨hret, hs3⟩ := hcall
    subst hret hs3 htg
    constructor
    · simp [call_loop, hb, hstmts, hterm, hp, hf, hprog, hargs, hpush,
        hloop, hread, hpop, hw]
    · exact read_after_write hw

/-- A one-call program used to witness C2: function 0 is the trivial body. -/
def call_witness_prog : Program :=
  fun d => if d = 0 then some trivial_mir else none

/-- The caller body used to witness C2: call function 0 into the return
slot, then return. -/
def call_witness_mir : Mir :=
  ⟨0, 0, 0,
   [⟨[], Terminator.Call Lvalue.ReturnPointer
      (Operand.Constant (Literal.Item 0)) [] [1]⟩,
    ⟨[], Terminator.Return⟩]⟩

/-- Witness for C2: the concrete nested call dispatches to the continuation
block with the returned value stored in the caller's return slot. -/
theorem call_terminator_semantics_witness :
    (call_loop 2 call_witness_prog call_witness_mir 0
        ⟨[Value.Uninit], [⟨0, 0, 0, 0⟩]⟩ =
      call_loop 1 call_witness_prog call_witness_mir 1
        ⟨[Value.Uninit], [⟨0, 0, 0, 0⟩]⟩)
    ∧ read_pointer ⟨[Value.Uninit], [⟨0, 0, 0, 0⟩]⟩ (Pointer.Stack 0) =
      Except.ok Value.Uninit :=
  (call_terminator_semantics 1 call_witness_prog call_witness_mir 0
    ⟨[], Terminator.Call Lvalue.ReturnPointer
      (Operand.Constant (Literal.Item 0)) [] [1]⟩
    Lvalue.ReturnPointer (Operand.Constant (Literal.Item 0)) [] [1]
    ⟨[Value.Uninit], [⟨0, 0, 0, 0⟩]⟩ ⟨[Value.Uninit], [⟨0, 0, 0, 0⟩]⟩
    rfl rfl rfl).2
    (Pointer.Stack 0) 0 trivial_mir [] Value.Uninit
    ⟨[Value.Uninit], [⟨0, 0, 0, 0⟩]⟩ ⟨[Value.Uninit], [⟨0, 0, 0, 0⟩]⟩
    1 [] rfl rfl rfl rfl rfl rfl rfl

/-- Setting the element right after a prefix replaces the head of the
suffix. -/
theorem set_after_prefix :
    ∀ (pre : List Value) (t : Value) (tail : List Value) (a : Value),
    (pre ++ t :: tail).set pre.length a = pre ++ a :: tail := by
  intro pre
  induction pre with
  | nil => intro t tail a; rfl
  | cons p pre ih => intro t tail a; simp [List.set, ih]

/-- The argument-write loop, run at the start of a suffix long enough to
hold every argument, overwrites the first `args.length` suffix elements. -/
theorem write_args_append :
    ∀ (args pre tail : List Value) (base i : Nat),
    base + 1 + i = pre.length → args.length ≤ tail.length →
    write_args base i args (pre ++ tail) =
      Except.ok (pre ++ args ++ tail.drop args.length) := by
  intro args
  induction args with
  | nil =>
    intro pre tail base i hidx hlen
    simp [write_args]
  | cons a rest ih =>
    intro pre tail base i hidx hlen
    cases tail with
    | nil => simp at hlen
    | cons t tail' =>
      have hlt : base + 1 + i < (pre ++ t :: tail').length := by
        simp [← hidx]
      have hset : (pre ++ t :: tail').set (base + 1 + i) a = pre ++ a :: tail' := by
        rw [hidx]
        exact set_after_prefix pre t tail' a
      have hrec := ih (pre ++ [a]) tail' base (i + 1)
        (by simp [← hidx]; omega) (by simpa using hlen)
      simp only [write_args, if_pos hlt, hset]
      rw [show pre ++ a :: tail' = (pre ++ [a]) ++ tail' by simp, hrec]
      simp

/-- The argument-write loop aborts on an out-of-range index when the suffix
is too short for the arguments. -/
theorem write_args_overflow :
    ∀ (args pre tail : List Value) (base i : Nat),
    base + 1 + i = pre.length → tail.length < args.length →
    write_args base i args (pre ++ tail) =
      Except.error EvalError.IndexOutOfBounds := by
  intro args
  induction args with
  | nil =>
    intro pre tail base i hidx hlen
    simp at hlen
  | cons a rest ih =>
    intro pre tail base i hidx hlen
    cases tail with
    | nil =>
      simp only [List.append_nil, write_args]
      rw [if_neg (show ¬ base + 1 + i < pre.length by omega)]
    | cons t tail' =>
      have hlt : base + 1 + i < (pre ++ t :: tail').length := by
        simp [← hidx]
      have hset : (pre ++ t :: tail').set (base + 1 + i) a = pre ++ a :: tail' := by
        rw [hidx]
        exact set_after_prefix pre t tail' a
      have hrec := ih (pre ++ [a]) tail' base (i + 1)
        (by simp [← hidx]; omega) (by simpa using hlen)
      simp only [write_args, if_pos hlt, hset]
      rw [show pre ++ a :: tail' = (pre ++ [a]) ++ tail' by simp, hrec]

/-- C6 as amended: `push_stack_frame` performs no argument-count check. When
the arguments fit into the frame's non-return slots it succeeds whether or
not their number matches `arg_decls`: every slot is first `Uninit` and the
arguments are then copied in order starting at the argument section (a
shorter list leaves trailing slots `Uninit`, a longer one spills into the
variable/temporary sections); only when the arguments outnumber all
non-return slots does the write run off the frame and abort on the
out-of-range index. `ArgumentCountMismatch` is never produced. -/
theorem push_stack_frame_characterization :
    (∀ (mir : Mir) (args : List Value) (s : InterpState),
      args.length ≤ mir.arg_decls + mir.var_decls + mir.temp_decls →
      push_stack_frame mir args s = Except.ok
        ⟨s.value_stack ++ Value.Uninit ::
          (args ++ List.replicate
            (mir.arg_decls + mir.var_decls + mir.temp_decls - args.length)
            Value.Uninit),
         (⟨s.value_stack.length, mir.arg_decls, mir.var_decls, mir.temp_decls⟩ : Frame)
           :: s.call_stack⟩)
    ∧ (∀ (mir : Mir) (args : List Value) (s : InterpState),
      mir.arg_decls + mir.var_decls + mir.temp_decls < args.length →
      push_stack_frame mir args s = Except.error EvalError.IndexOutOfBounds) := by
  constructor
  · intro mir args s hlen
    simp only [push_stack_frame, Frame.size]
    have hrep : List.replicate
        (1 + mir.arg_decls + mir.var_decls + mir.temp_decls) Value.Uninit =
        Value.Uninit :: List.replicate
          (mir.arg_decls + mir.var_decls + mir.temp_decls) Value.Uninit := by
      rw [show 1 + mir.arg_decls + mir.var_decls + mir.temp_decls =
        (mir.arg_decls + mir.var_decls + mir.temp_decls) + 1 by omega]
      rw [List.replicate_succ]
    rw [hrep]
    have hw := write_args_append args (s.value_stack ++ [Value.Uninit])
      (List.replicate (mir.arg_decls + mir.var_decls + mir.temp_decls)
        Value.Uninit)
      s.value_stack.length 0 (by simp) (by simpa using hlen)
    rw [show s.value_stack ++ Value.Uninit :: List.replicate
        (mir.arg_decls + mir.var_decls + mir.temp_decls) Value.Uninit =
      (s.value_stack ++ [Value.Uninit]) ++ List.replicate
        (mir.arg_decls + mir.var_decls + mir.temp_decls) Value.Uninit by simp]
    rw [hw]
    simp [List.drop_replicate]
  · intro mir args s hlen
    simp only [push_stack_frame, Frame.size]
    have hrep : List.replicate
        (1 + mir.arg_decls + mir.var_decls + mir.temp_decls) Value.Uninit =
        Value.Uninit :: List.replicate
          (mir.arg_decls + mir.var_decls + mir.temp_decls) Value.Uninit := by
      rw [show 1 + mir.arg_decls + mir.var_decls + mir.temp_decls =
        (mir.arg_decls + mir.var_decls + mir.temp_decls) + 1 by omega]
      rw [List.replicate_succ]
    rw [hrep]
    have hw := write_args_overflow args (s.value_stack ++ [Value.Uninit])
      (List.replicate (mir.arg_decls + mir.var_decls + mir.temp_decls)
        Value.Uninit)
      s.value_stack.length 0 (by simp) (by simpa using hlen)
    rw [show s.value_stack ++ Value.Uninit :: List.replicate
        (mir.arg_decls + mir.var_decls + mir.temp_decls) Value.Uninit =
      (s.value_stack ++ [Value.Uninit]) ++ List.replicate
        (mir.arg_decls + mir.var_decls + mir.temp_decls) Value.Uninit by simp]
    rw [hw]

/-- Counterexample to C6 as stated: pushing a frame for a body declaring one
argument with an empty argument list succeeds (the argument slot is silently
left `Uninit`) instead of failing with `ArgumentCountMismatch`. -/
theorem push_arg_count_unchecked :
    push_stack_frame (⟨1, 0, 0, []⟩ : Mir) [] initial_state =
      Except.ok ⟨[Value.Uninit, Value.Uninit], [(⟨0, 1, 0, 0⟩ : Frame)]⟩ :=
  rfl

/-- Witness for C6's amended statement: a matching one-argument push copies
the argument after the return slot. -/
theorem push_stack_frame_characterization_witness :
    push_stack_frame (⟨1, 1, 0, []⟩ : Mir) [Value.Int 5] initial_state =
      Except.ok
        ⟨initial_state.value_stack ++ Value.Uninit ::
          ([Value.Int 5] ++ List.replicate (1 + 1 + 0 - 1) Value.Uninit),
         (⟨initial_state.value_stack.length, 1, 1, 0⟩ : Frame)
           :: initial_state.call_stack⟩ :=
  push_stack_frame_characterization.1 ⟨1, 1, 0, []⟩ [Value.Int 5]
    initial_state (by decide)

/-- The wrapped representative always lies in the signed 64-bit range. -/
theorem wrap64_in_range (x : Int) : in_i64 (wrap64 x) := by
  unfold in_i64 wrap64
  have h1 := Int.emod_nonneg (x + 2 ^ 63) (show (2 : Int) ^ 64 ≠ 0 by norm_num)
  have h2 := Int.emod_lt_of_pos (x + 2 ^ 63) (show (0 : Int) < 2 ^ 64 by norm_num)
  omega

/-- The wrapped representative is congruent to the exact result modulo
2^64. -/
theorem wrap64_congruent (x : Int) : (2 ^ 64 : Int) ∣ (wrap64 x - x) := by
  refine ⟨-((x + 2 ^ 63) / 2 ^ 64), ?_⟩
  unfold wrap64
  have hdef := Int.emod_def (x + 2 ^ 63) (2 ^ 64)
  omega

/-- Every bit pattern is below 2^64. -/
theorem toBits_lt (x : Int) : toBits x < 2 ^ 64 := by
  unfold toBits
  have h1 := Int.emod_nonneg x (show (2 : Int) ^ 64 ≠ 0 by norm_num)
  have h2 := Int.emod_lt_of_pos x (show (0 : Int) < 2 ^ 64 by norm_num)
  omega

/-- Wrapping a bit pattern below 2^64 yields an integer with exactly that
bit pattern. -/
theorem toBits_wrap64 (m : Nat) (hm : m < 2 ^ 64) :
    toBits (wrap64 (m : Int)) = m := by
  obtain ⟨k, hk⟩ := wrap64_congruent (m : Int)
  unfold toBits
  have hdef := Int.emod_def (wrap64 (m : Int)) (2 ^ 64)
  have h1 := Int.emod_nonneg (wrap64 (m : Int))
    (show (2 : Int) ^ 64 ≠ 0 by norm_num)
  have h2 := Int.emod_lt_of_pos (wrap64 (m : Int))
    (show (0 : Int) < 2 ^ 64 by norm_num)
  omega

/-- C4 as amended: on two `Integer` operands every supported operator
produces a `Boolean` for the six comparisons and an `Integer` otherwise,
matching two's-complement 64-bit signed semantics — the additive,
multiplicative and shift-left results are the in-range representatives
congruent to the exact results modulo 2^64, division/remainder truncate
toward zero, shifts use the low six bits of the right operand, shift-right
is the arithmetic (floor) shift, and the bitwise results have exactly the
xor/and/or of the operands' bit patterns — except that division and
remainder with divisor zero, or `MIN / -1`, abort natively instead of
returning a value; and a `BinaryOp` whose operands are not both `Integer`
is an unsupported construct. -/
theorem binary_op_i64_semantics (l r : Int) (hl : in_i64 l) (hr : in_i64 r) :
    (∃ n, binary_op BinOp.Add l r = Except.ok (Value.Int n)
      ∧ in_i64 n ∧ (2 ^ 64 : Int) ∣ (n - (l + r)))
    ∧ (∃ n, binary_op BinOp.Sub l r = Except.ok (Value.Int n)
      ∧ in_i64 n ∧ (2 ^ 64 : Int) ∣ (n - (l - r)))
    ∧ (∃ n, binary_op BinOp.Mul l r = Except.ok (Value.Int n)
      ∧ in_i64 n ∧ (2 ^ 64 : Int) ∣ (n - l * r))
    ∧ (r ≠ 0 → ¬(l = i64_min ∧ r = -1) →
      binary_op BinOp.Div l r = Except.ok (Value.Int (l.tdiv r))
      ∧ binary_op BinOp.Rem l r = Except.ok (Value.Int (l.tmod r)))
    ∧ (∃ n, binary_op BinOp.BitXor l r = Except.ok (Value.Int n)
      ∧ in_i64 n ∧ toBits n = Nat.xor (toBits l) (toBits r))
    ∧ (∃ n, binary_op BinOp.BitAnd l r = Except.ok (Value.Int n)
      ∧ in_i64 n ∧ toBits n = Nat.land (toBits l) (toBits r))
    ∧ (∃ n, binary_op BinOp.BitOr l r = Except.ok (Value.Int n)
      ∧ in_i64 n ∧ toBits n = Nat.lor (toBits l) (toBits r))
    ∧ (∃ n, binary_op BinOp.Shl l r = Except.ok (Value.Int n)
      ∧ in_i64 n ∧ (2 ^ 64 : Int) ∣ (n - l * 2 ^ shift_amount r))
    ∧ binary_op BinOp.Shr l r =
        Except.ok (Value.Int (l.fdiv (2 ^ shift_amount r)))
    ∧ binary_op BinOp.Eq l r = Except.ok (Value.Bool (decide (l = r)))
    ∧ binary_op BinOp.Lt l r = Except.ok (Value.Bool (decide (l < r)))
    ∧ binary_op BinOp.Le l r = Except.ok (Value.Bool (decide (l ≤ r)))
    ∧ binary_op BinOp.Ne l r = Except.ok (Value.Bool (decide (l ≠ r)))
    ∧ binary_op BinOp.Ge l r = Except.ok (Value.Bool (decide (r ≤ l)))
    ∧ binary_op BinOp.Gt l r = Except.ok (Value.Bool (decide (r < l)))
    ∧ (∀ (s : InterpState) (op : BinOp) (left right : Operand) (vl vr : Value),
      eval_operand s left = Except.ok vl → eval_operand s right = Except.ok vr →
      (∀ a b, ¬(vl = Value.Int a ∧ vr = Value.Int b)) →
      eval_rvalue s (Rvalue.BinaryOp op left right) =
        Except.error EvalError.UnsupportedConstruct) := by
  refine ⟨⟨wrap64 (l + r), rfl, wrap64_in_range _, wrap64_congruent _⟩,
    ⟨wrap64 (l - r), rfl, wrap64_in_range _, wrap64_congruent _⟩,
    ⟨wrap64 (l * r), rfl, wrap64_in_range _, wrap64_congruent _⟩,
    ?_, ?_, ?_, ?_,
    ⟨wrap64 (l * 2 ^ shift_amount r), rfl, wrap64_in_range _, wrap64_congruent _⟩,
    rfl, rfl, rfl, rfl, rfl, rfl, rfl, ?_⟩
  · intro hr0 hmin
    constructor <;> simp [binary_op, hr0, hmin]
  · exact ⟨wrap64 (Nat.xor (toBits l) (toBits r) : Nat), rfl, wrap64_in_range _,
      toBits_wrap64 _ (Nat.xor_lt_two_pow (toBits_lt l) (toBits_lt r))⟩
  · exact ⟨wrap64 (Nat.land (toBits l) (toBits r) : Nat), rfl, wrap64_in_range _,
      toBits_wrap64 _ (Nat.lt_of_le_of_lt Nat.and_le_left (toBits_lt l))⟩
  · exact ⟨wrap64 (Nat.lor (toBits l) (toBits r) : Nat), rfl, wrap64_in_range _,
      toBits_wrap64 _ (Nat.or_lt_two_pow (toBits_lt l) (toBits_lt r))⟩
  · intro s op left right vl vr hleft hright hne
    cases vl with
    | Int a =>
      cases vr with
      | Int b => exact absurd ⟨rfl, rfl⟩ (hne a b)
      | Uninit => simp [eval_rvalue, hleft, hright]
      | Bool b' => simp [eval_rvalue, hleft, hright]
      | Func d => simp [eval_rvalue, hleft, hright]
    | Uninit => simp [eval_rvalue, hleft, hright]
    | Bool b' => simp [eval_rvalue, hleft, hright]
    | Func d => simp [eval_rvalue, hleft, hright]

/-- Witness for C4's amended statement at `l = 5`, `r = 3`. -/
theorem binary_op_i64_semantics_witness :
    ∃ n, binary_op BinOp.Add 5 3 = Except.ok (Value.Int n)
      ∧ in_i64 n ∧ (2 ^ 64 : Int) ∣ (n - (5 + 3)) :=
  (binary_op_i64_semantics 5 3 (by decide) (by decide)).1

/-- Counterexample to C4 as stated: the `Integer` operand pair `(1, 0)`
under `div` does not produce an `Integer` (nor any value) — evaluation
aborts with a divide-by-zero failure. -/
theorem binary_op_div_zero_counterexample :
    eval_rvalue initial_state
      (Rvalue.BinaryOp BinOp.Div
        (Operand.Constant (Literal.Value (ConstVal.Int 1)))
        (Operand.Constant (Literal.Value (ConstVal.Int 0)))) =
      Except.error EvalError.DivideByZero :=
  rfl

end Miri




